import Mathlib

/-!
Verification development for the Arina-BE recommendation engine
(`src/dist/index.mjs`, mirrored by `src/services/recommendation-service.ts`).

Modelling conventions, fixed once for the whole file:

* JS numbers are modelled as `ℚ` (every numeric literal appearing in the
  engine is an exact decimal; binary floating-point artefacts are out of
  scope).  Division by zero, which in JS produces `Infinity`/`NaN`, is
  modelled explicitly at the places it can occur (see
  `forecastGrowthRecsFor`, `forecastSeasonalRecsFor`, `bizCostRecsFor`).
* A JS `Date` is modelled by its `getTime()` value: a natural number of
  milliseconds since the epoch.  `Date.prototype.toDateString` renders the
  calendar day; two dates have the same `toDateString` exactly when they
  have the same day index, which for a fixed-offset calendar is
  `time / msPerDay`.
* `Array.prototype.sort` is a stable comparison sort; it is modelled by
  Mathlib's stable `List.insertionSort`, and a JS comparator `c` is
  modelled by the relation `fun a b => c a b ≤ 0` ("a may be placed
  before b").
* JS truthiness tests on optional numeric fields (`data.x && ...`) are
  modelled as: the field is present and its value is nonzero.
* `new Date()` / `Date.now()` inside one engine call are modelled by a
  single `now` parameter threaded through the extractors (sub-millisecond
  drift between the individual clock reads inside one call is ignored).
* The `data` evidence payload attached to each produced recommendation is
  not modelled: no claim mentions it and nothing in the engine reads it
  back.
-/

namespace Arina

/-- Milliseconds per calendar day; `toDateString` equality is day-index
equality `createdAt / msPerDay`. -/
def msPerDay : Nat := 86400000

/-- A recommendation candidate as pushed by the extractors in
`src/dist/index.mjs` (fields `id`, `type`, `title`, `description`,
`confidence`, `source`, `createdAt`; the `data` payload is omitted, see
the header). -/
structure Recommendation where
  id : String
  type : String
  title : String
  description : String
  confidence : ℚ
  source : String
  createdAt : Nat
  deriving DecidableEq

/-- Day index of a candidate's creation time (models
`createdAt.toDateString()` up to equality). -/
def dayOf (c : Recommendation) : Nat := c.createdAt / msPerDay

/-- First ranking pass comparator `(a, b) => dateB - dateA` of
`generateRecommendations`: `a` may precede `b` iff `b` is not newer. -/
def timeLe (a b : Recommendation) : Prop := b.createdAt ≤ a.createdAt

/-- Second ranking pass comparator of `generateRecommendations`: compare
`toDateString()` values; on the same calendar day compare
`b.confidence - a.confidence`, otherwise return `0`. -/
def dayConfLe (a b : Recommendation) : Prop :=
  dayOf a = dayOf b → b.confidence ≤ a.confidence

/-- Confidence-descending comparator (the same-day branch of the second
pass). -/
def confLe (a b : Recommendation) : Prop := b.confidence ≤ a.confidence

instance : DecidableRel timeLe := fun a b =>
  inferInstanceAs (Decidable (b.createdAt ≤ a.createdAt))

instance : DecidableRel dayConfLe := fun a b =>
  inferInstanceAs (Decidable (dayOf a = dayOf b → b.confidence ≤ a.confidence))

instance : DecidableRel confLe := fun a b =>
  inferInstanceAs (Decidable (b.confidence ≤ a.confidence))

instance : IsTotal Recommendation timeLe :=
  ⟨fun a b => by unfold timeLe; exact Nat.le_total _ _⟩

instance : IsTrans Recommendation timeLe :=
  ⟨fun _ _ _ h1 h2 => by unfold timeLe at *; exact le_trans h2 h1⟩

instance : IsTotal Recommendation confLe :=
  ⟨fun a b => by unfold confLe; exact le_total _ _⟩

instance : IsTrans Recommendation confLe :=
  ⟨fun _ _ _ h1 h2 => by unfold confLe at *; exact le_trans h2 h1⟩

/-- The two successive in-place sorts applied to the merged candidate
list in `generateRecommendations` (lines 721-733 of `index.mjs`). -/
def rankRecommendations (l : List Recommendation) : List Recommendation :=
  List.insertionSort dayConfLe (List.insertionSort timeLe l)

/-- Maximal runs of consecutive candidates sharing a calendar day (an
analysis device for the second sort pass; not part of the source). -/
def dayRuns : List Recommendation → List (List Recommendation)
  | [] => []
  | x :: xs =>
    (x :: xs.takeWhile (fun y => dayOf y == dayOf x)) ::
      dayRuns (xs.dropWhile (fun y => dayOf y == dayOf x))
termination_by l => l.length
decreasing_by
  simp only [List.length_cons]
  exact Nat.lt_succ_of_le (List.dropWhile_sublist _).length_le

/-! ### Analysis-result input model -/

/-- An `operationalCosts` entry `{name, amount}`. -/
structure CostEntry where
  name : String
  amount : ℚ
  deriving DecidableEq

/-- The `accuracy` object of a demand-forecast payload. -/
structure AccuracyInfo where
  mape : Option ℚ := none
  deriving DecidableEq

/-- An optimization `variables` entry `{name, value}`. -/
structure VariableEntry where
  name : String
  value : ℚ
  deriving DecidableEq

/-- An optimization `constraints` entry `{name, slack}`. -/
structure ConstraintEntry where
  name : String
  slack : ℚ
  deriving DecidableEq

/-- The opaque `data` payload of an `AnalysisResult`, flattened over the
fields the three analysis extractors read.  `Option` marks fields that
may be absent; `forecasted` holds the `forecast` value of each series
entry, `chartHistorical` the `value` of each `chart.historical` entry.
The JS field `variables` is named `variableEntries` here because
`variables` is reserved in Lean. -/
structure AnalysisData where
  businessName : String := ""
  profitMargin : Option ℚ := none
  roi : Option ℚ := none
  operationalCosts : Option (List CostEntry) := none
  breakEvenUnits : Option ℚ := none
  monthlySalesVolume : Option ℚ := none
  productName : String := ""
  forecasted : Option (List ℚ) := none
  chartHistorical : Option (List ℚ) := none
  accuracy : Option AccuracyInfo := none
  name : String := ""
  feasible : Option Bool := none
  objectiveValue : Option ℚ := none
  variableEntries : Option (List VariableEntry) := none
  constraints : Option (List ConstraintEntry) := none
  deriving DecidableEq

/-- A stored analysis result as read by the engine (`created_at` is
nullable in the store). -/
structure AnalysisResult where
  id : String
  type : String
  data : AnalysisData
  created_at : Option Nat := none
  deriving DecidableEq

/-- Sort key of `sortByRecency`: `a.created_at ? getTime() : 0`. -/
def recencyKey (r : AnalysisResult) : Nat := r.created_at.getD 0

/-- Comparator of `sortByRecency` (newest first, null timestamps as
epoch zero). -/
def recencyLe (a b : AnalysisResult) : Prop := recencyKey b ≤ recencyKey a

instance : DecidableRel recencyLe := fun a b =>
  inferInstanceAs (Decidable (recencyKey b ≤ recencyKey a))

/-- `sortByRecency` of `index.mjs`: stable sort, newest first. -/
def sortByRecency (results : List AnalysisResult) : List AnalysisResult :=
  List.insertionSort recencyLe results

/-! ### Number formatting (`toFixed`) -/

/-- Rendering of a nonnegative integer `n` of tenths as `"i.d"`. -/
def tenthsRender (n : Nat) : String :=
  let whole := n / 10
  let tenth := n % 10
  s!"{whole}.{tenth}"

/-- Models `Number.prototype.toFixed(1)` on exact decimals: round to the
nearest tenth, ties toward positive infinity (ECMA-262). -/
def toFixed1 (q : ℚ) : String :=
  let n : Int := Int.floor (q * 10 + 1 / 2)
  if n < 0 then "-" ++ tenthsRender n.natAbs else tenthsRender n.natAbs

/-- Rendering of a nonnegative integer `n` of hundredths as `"i.dd"`. -/
def hundredthsRender (n : Nat) : String :=
  let whole := n / 100
  let frac := n % 100
  let fracStr := if frac < 10 then s!"0{frac}" else s!"{frac}"
  s!"{whole}.{fracStr}"

/-- Models `Number.prototype.toFixed(2)` on exact decimals. -/
def toFixed2 (q : ℚ) : String :=
  let n : Int := Int.floor (q * 100 + 1 / 2)
  if n < 0 then "-" ++ hundredthsRender n.natAbs else hundredthsRender n.natAbs

/-! ### Business-feasibility extractor -/

/-- The `profitMargin` rule block of `extractBusinessRecommendations`. -/
def bizProfitRecsFor (now : Nat) (result : AnalysisResult) : List Recommendation :=
  match result.data.profitMargin with
  | none => []
  | some pm =>
    if pm ≠ 0 ∧ 0.25 < pm then
      let rid := result.id
      let bn := result.data.businessName
      let pct := toFixed1 (pm * 100)
      [{ id := s!"biz-profit-{rid}", type := "business",
         title := "Profitable Business Model",
         description := s!"Your {bn} shows a strong profit margin of {pct}%. Consider scaling operations while maintaining current cost structure.",
         confidence := 0.8, source := "analysis", createdAt := now }]
    else []

/-- The `roi` rule block of `extractBusinessRecommendations`. -/
def bizRoiRecsFor (now : Nat) (result : AnalysisResult) : List Recommendation :=
  match result.data.roi with
  | none => []
  | some roi =>
    if roi ≠ 0 ∧ 0.15 < roi then
      let rid := result.id
      let bn := result.data.businessName
      let pct := toFixed1 (roi * 100)
      [{ id := s!"biz-roi-{rid}", type := "business",
         title := "Strong Return on Investment",
         description := s!"Your investment in {bn} shows a {pct}% ROI. Consider additional investment in similar ventures.",
         confidence := 0.75, source := "analysis", createdAt := now }]
    else []

/-- Comparator of the cost sort `(a, b) => b.amount - a.amount`. -/
def costGe (a b : CostEntry) : Prop := b.amount ≤ a.amount

instance : DecidableRel costGe := fun a b =>
  inferInstanceAs (Decidable (b.amount ≤ a.amount))

/-- The `operationalCosts` rule block of
`extractBusinessRecommendations`. -/
def bizCostRecsFor (now : Nat) (result : AnalysisResult) : List Recommendation :=
  match result.data.operationalCosts with
  | none => []
  | some costs =>
    match List.insertionSort costGe costs with
    | [] => []
    | highestCost :: _ =>
      let total := (List.insertionSort costGe costs).foldl (fun sum c => sum + c.amount) 0
      let costPercentage := highestCost.amount / total
      if (if total ≠ 0 then 0.3 < costPercentage else 0 < highestCost.amount) then
        let rid := result.id
        let cn := highestCost.name
        let pct := toFixed1 (costPercentage * 100)
        [{ id := s!"biz-cost-{rid}", type := "resource",
           title := "Cost Reduction Opportunity",
           description := s!"{cn} represents {pct}% of your operational costs. Reducing this could significantly improve profitability.",
           confidence := 0.7, source := "analysis", createdAt := now }]
      else []

/-- The break-even rule block of `extractBusinessRecommendations`. -/
def bizBreakEvenRecsFor (now : Nat) (result : AnalysisResult) : List Recommendation :=
  match result.data.breakEvenUnits, result.data.monthlySalesVolume with
  | some beu, some msv =>
    if beu ≠ 0 ∧ msv ≠ 0 then
      let breakEvenRate := beu / msv
      if breakEvenRate < 0.5 then
        let rid := result.id
        let pct := toFixed1 (breakEvenRate * 100)
        [{ id := s!"biz-breakeven-{rid}", type := "business",
           title := "Favorable Break-Even Point",
           description := s!"You reach break-even at just {pct}% of your monthly sales volume. This gives you a safety margin in market fluctuations.",
           confidence := 0.85, source := "analysis", createdAt := now }]
      else []
    else []
  | _, _ => []

/-- The body of the `forEach` in `extractBusinessRecommendations`: the
four independently guarded rule blocks, in push order. -/
def businessRecsFor (now : Nat) (result : AnalysisResult) : List Recommendation :=
  bizProfitRecsFor now result ++ bizRoiRecsFor now result ++
    bizCostRecsFor now result ++ bizBreakEvenRecsFor now result

/-- `extractBusinessRecommendations` of `index.mjs`. -/
def extractBusinessRecommendations (now : Nat) (results : List AnalysisResult) :
    List Recommendation :=
  (((sortByRecency (results.filter (fun r => r.type == "business_feasibility"))).take 3).map
      (businessRecsFor now)).flatten

/-! ### Demand-forecast extractor -/

/-- The `growthRate` computed by `extractForecastRecommendations` from
the first and last entries of the forecast series. -/
def forecastRate (fs : List ℚ) : ℚ :=
  (fs.getLastD 0 - fs.headD 0) / fs.headD 0

/-- The growth candidate of `extractForecastRecommendations`. -/
def forecastGrowthCand (now : Nat) (result : AnalysisResult) (growthRate : ℚ) :
    Recommendation :=
  let rid := result.id
  let pn := result.data.productName
  let pct := toFixed1 (growthRate * 100)
  { id := s!"forecast-growth-{rid}", type := "market",
    title := "Growing Demand Trend",
    description := s!"Demand for {pn} is projected to grow by {pct}% over the forecast period. Consider increasing production capacity.",
    confidence := 0.75, source := "analysis", createdAt := now }

/-- The decline candidate of `extractForecastRecommendations`. -/
def forecastDeclineCand (now : Nat) (result : AnalysisResult) (growthRate : ℚ) :
    Recommendation :=
  let rid := result.id
  let pn := result.data.productName
  let pct := toFixed1 (|growthRate| * 100)
  { id := s!"forecast-decline-{rid}", type := "market",
    title := "Declining Demand Alert",
    description := s!"Demand for {pn} is projected to decline by {pct}% over the forecast period. Consider diversifying your product mix.",
    confidence := 0.75, source := "analysis", createdAt := now }

/-- The growth/decline rule block of `extractForecastRecommendations`.
In JS, `firstForecast = 0` makes `growthRate` `±Infinity` (or `NaN` when
the last value is also `0`); the comparisons `growthRate > 0.1` and
`growthRate < -0.1` are modelled accordingly by the `first = 0` branch.
The rendered description in that degenerate branch would contain
`"Infinity"` in JS; the rendering difference is outside every claim. -/
def forecastGrowthRecsFor (now : Nat) (result : AnalysisResult) : List Recommendation :=
  match result.data.forecasted with
  | none => []
  | some fs =>
    if 1 < fs.length then
      if (if fs.headD 0 ≠ 0 then 0.1 < forecastRate fs else 0 < fs.getLastD 0) then
        [forecastGrowthCand now result (forecastRate fs)]
      else if (if fs.headD 0 ≠ 0 then forecastRate fs < -0.1 else fs.getLastD 0 < 0) then
        [forecastDeclineCand now result (forecastRate fs)]
      else []
    else []

/-- The seasonality rule block of `extractForecastRecommendations`.
For an empty `chart.historical` list JS computes `avg = NaN` and the
peak filter returns no elements either way, so the branch is faithful
for every input. -/
def forecastSeasonalRecsFor (now : Nat) (result : AnalysisResult) : List Recommendation :=
  match result.data.chartHistorical with
  | none => []
  | some values =>
    let avg := (values.foldl (· + ·) 0) / (values.length : ℚ)
    let peaks := (values.filter (fun v => avg * 1.2 < v)).length
    if 2 ≤ peaks then
      let rid := result.id
      let pn := result.data.productName
      let pk := peaks
      [{ id := s!"forecast-seasonal-{rid}", type := "market",
         title := "Seasonal Demand Pattern",
         description := s!"{pn} shows seasonal demand patterns with {pk} peak periods. Plan inventory and production to align with these patterns.",
         confidence := 0.7, source := "pattern", createdAt := now }]
    else []

/-- The high-reliability candidate of the accuracy rule. -/
def forecastHighRelCand (now : Nat) (result : AnalysisResult) (mape : ℚ) :
    Recommendation :=
  let rid := result.id
  let pn := result.data.productName
  let mp := toFixed1 mape
  { id := s!"forecast-accuracy-{rid}", type := "business",
    title := "High Forecast Reliability",
    description := s!"Your {pn} forecast has a high accuracy (MAPE: {mp}%). Use this forecast with confidence for planning.",
    confidence := 0.8, source := "analysis", createdAt := now }

/-- The uncertainty-alert candidate of the accuracy rule. -/
def forecastUncertainCand (now : Nat) (result : AnalysisResult) (mape : ℚ) :
    Recommendation :=
  let rid := result.id
  let pn := result.data.productName
  let mp := toFixed1 mape
  { id := s!"forecast-inaccuracy-{rid}", type := "business",
    title := "Forecast Uncertainty Alert",
    description := s!"Your {pn} forecast has a higher error rate (MAPE: {mp}%). Consider using more historical data or adjusting your forecast method.",
    confidence := 0.7, source := "analysis", createdAt := now }

/-- The accuracy rule block of `extractForecastRecommendations`.  Note
the JS truthiness guards: `data.accuracy && data.accuracy.mape && ...`
— a present MAPE of exactly `0` fails its own truthiness test. -/
def forecastAccuracyRecsFor (now : Nat) (result : AnalysisResult) : List Recommendation :=
  match result.data.accuracy with
  | none => []
  | some acc =>
    match acc.mape with
    | none => []
    | some mape =>
      if mape ≠ 0 ∧ mape < 10 then [forecastHighRelCand now result mape]
      else if mape ≠ 0 ∧ 20 < mape then [forecastUncertainCand now result mape]
      else []

/-- The body of the `forEach` in `extractForecastRecommendations`: the
three independently guarded rule blocks, in push order. -/
def forecastRecsFor (now : Nat) (result : AnalysisResult) : List Recommendation :=
  forecastGrowthRecsFor now result ++ forecastSeasonalRecsFor now result ++
    forecastAccuracyRecsFor now result

/-- `extractForecastRecommendations` of `index.mjs`. -/
def extractForecastRecommendations (now : Nat) (results : List AnalysisResult) :
    List Recommendation :=
  (((sortByRecency (results.filter (fun r => r.type == "demand_forecast"))).take 3).map
      (forecastRecsFor now)).flatten

/-! ### Optimization extractor -/

/-- Comparator of the variables sort `(a, b) => b.value - a.value`. -/
def valueGe (a b : VariableEntry) : Prop := b.value ≤ a.value

instance : DecidableRel valueGe := fun a b =>
  inferInstanceAs (Decidable (b.value ≤ a.value))

/-- The `feasible === true` head candidate of
`extractOptimizationRecommendations`; the description interpolates the
objective value only when it is truthy. -/
def optFeasibleCand (now : Nat) (result : AnalysisResult) : Recommendation :=
  let rid := result.id
  let optName := result.data.name
  let objPart :=
    match result.data.objectiveValue with
    | some ov =>
      if ov ≠ 0 then
        let ovs := toFixed2 ov
        s!"an objective value of {ovs}"
      else "optimized resource allocation"
    | none => "optimized resource allocation"
  { id := s!"opt-feasible-{rid}", type := "resource",
    title := "Optimal Resource Allocation",
    description := s!"Your {optName} optimization model has a feasible solution with {objPart}.",
    confidence := 0.9, source := "analysis", createdAt := now }

/-- The `variables` rule block (top-3 positive values). -/
def optVariableRecsFor (now : Nat) (result : AnalysisResult) : List Recommendation :=
  match result.data.variableEntries with
  | none => []
  | some vars =>
    let significantVariables :=
      (List.insertionSort valueGe (vars.filter (fun v => 0 < v.value))).take 3
    if significantVariables.isEmpty then []
    else
      let varList :=
        String.intercalate ", " (significantVariables.map (fun v =>
          let vn := v.name
          let vv := toFixed2 v.value
          s!"{vn}: {vv}"))
      let rid := result.id
      [{ id := s!"opt-resources-{rid}", type := "resource",
         title := "Key Resource Allocation",
         description := s!"Focus on these resources for optimal results: {varList}",
         confidence := 0.8, source := "analysis", createdAt := now }]

/-- The `constraints` rule block (binding constraints: slack zero or
within `1e-3` of zero). -/
def optConstraintRecsFor (now : Nat) (result : AnalysisResult) : List Recommendation :=
  match result.data.constraints with
  | none => []
  | some cons =>
    let bindingConstraints :=
      (cons.filter (fun c => c.slack = 0 ∨ |c.slack| < 0.001)).map (fun c => c.name)
    if bindingConstraints.isEmpty then []
    else
      let cList := String.intercalate ", " bindingConstraints
      let rid := result.id
      [{ id := s!"opt-constraints-{rid}", type := "business",
         title := "Resource Bottlenecks Identified",
         description := s!"These factors are limiting your optimization: {cList}. Consider increasing these resources.",
         confidence := 0.85, source := "analysis", createdAt := now }]

/-- The `feasible === false` candidate. -/
def optInfeasibleCand (now : Nat) (result : AnalysisResult) : Recommendation :=
  let rid := result.id
  let optName := result.data.name
  { id := s!"opt-infeasible-{rid}", type := "business",
    title := "Resource Constraints Too Tight",
    description := s!"Your {optName} optimization model doesn\u0027t have a feasible solution. Consider relaxing some constraints or adding more resources.",
    confidence := 0.9, source := "analysis", createdAt := now }

/-- The body of the `forEach` in `extractOptimizationRecommendations`:
branch on the boolean `feasible` field; an absent `feasible` matches
neither `=== true` nor `=== false` and yields nothing. -/
def optimizationRecsFor (now : Nat) (result : AnalysisResult) : List Recommendation :=
  match result.data.feasible with
  | some true =>
    optFeasibleCand now result ::
      (optVariableRecsFor now result ++ optConstraintRecsFor now result)
  | some false => [optInfeasibleCand now result]
  | none => []

/-- `extractOptimizationRecommendations` of `index.mjs`. -/
def extractOptimizationRecommendations (now : Nat) (results : List AnalysisResult) :
    List Recommendation :=
  (((sortByRecency (results.filter (fun r => r.type == "optimization"))).take 3).map
      (optimizationRecsFor now)).flatten

/-! ### Chat-insight extractor -/

/-- A chat message as read by `extractChatInsights` (content is the JS
string as a character sequence; `created_at` is nullable). -/
structure ChatMessage where
  role : String
  content : List Char
  created_at : Option Nat := none
  deriving DecidableEq

/-- Comparator of the message recency sort inside `extractChatInsights`
(newest first, null timestamps as epoch zero). -/
def msgRecencyLe (a b : ChatMessage) : Prop :=
  b.created_at.getD 0 ≤ a.created_at.getD 0

instance : DecidableRel msgRecencyLe := fun a b =>
  inferInstanceAs (Decidable (b.created_at.getD 0 ≤ a.created_at.getD 0))

/-- The fixed `keywordMap` of `extractChatInsights`, in insertion
order. -/
def keywordMap : List (String × String) :=
  [("increase", "growth"), ("expand", "growth"), ("grow", "growth"),
   ("profit", "profit"), ("revenue", "profit"),
   ("cost", "cost"), ("expense", "cost"), ("save", "cost"),
   ("risk", "risk"),
   ("market", "market"), ("demand", "market"), ("customer", "market"),
   ("season", "seasonal"), ("weather", "seasonal"), ("climate", "seasonal"),
   ("resource", "resource"), ("water", "resource"), ("soil", "resource"),
   ("fertilizer", "resource"), ("pest", "resource"), ("equipment", "resource")]

/-- The category buckets of `extractChatInsights`, in insertion order
(the order `Object.entries` iterates them). -/
def chatCategoryOrder : List String :=
  ["growth", "profit", "cost", "risk", "market", "seasonal", "resource"]

/-- JS `toLowerCase`, restricted to ASCII case folding (the keywords are
all ASCII; full-Unicode case folding is out of scope). -/
def lowerStr (l : List Char) : List Char := l.map Char.toLower

/-- The sentence-separator class of `content.split(/[.!?]+/)`. -/
def sentencePunct (c : Char) : Bool := c == '.' || c == '!' || c == '?'

/-- Sentence splitting `content.split(/[.!?]+/)`: split on the
separator class, dropping the separators.  Unlike the regex with `+`,
this keeps an empty chunk between adjacent separators; empty chunks
contain no keyword and the code only ever reads keyword-containing
chunks, so the two readings agree on everything the code observes. -/
def splitSentences : List Char → List (List Char)
  | [] => [[]]
  | c :: cs =>
    if sentencePunct c then [] :: splitSentences cs
    else
      match splitSentences cs with
      | [] => [[c]]
      | s :: rest => (c :: s) :: rest

/-- JS `String.prototype.trim` (whitespace at both ends). -/
def trimChars (l : List Char) : List Char :=
  ((l.dropWhile Char.isWhitespace).reverse.dropWhile Char.isWhitespace).reverse

/-- The sentences message `m` appends to category `cat`'s bucket: one
per keyword of that category whose lower-cased content match succeeds,
in keyword-map order (the inner `Object.entries(keywordMap)` loop of
`extractChatInsights`, restricted to `cat`). -/
def msgContributions (cat : String) (m : ChatMessage) : List (List Char) :=
  keywordMap.filterMap fun kc =>
    if kc.2 = cat ∧ kc.1.toList <:+: lowerStr m.content then
      match (splitSentences m.content).filter (fun s => kc.1.toList <:+: lowerStr s) with
      | [] => none
      | s :: _ => some (trimChars s)
    else none

/-- Category `cat`'s collected bucket after the message loop of
`extractChatInsights` (messages outer, keywords inner, so the bucket is
the concatenation of the per-message contributions). -/
def categoryBucket (msgs : List ChatMessage) (cat : String) : List (List Char) :=
  msgs.flatMap (msgContributions cat)

/-- The category-to-type `switch` of `extractChatInsights`; `risk` falls
through to the `default` branch. -/
def chatTypeFor : String → String
  | "growth" => "business"
  | "profit" => "business"
  | "market" => "market"
  | "seasonal" => "market"
  | "resource" => "resource"
  | "cost" => "resource"
  | _ => "business"

/-- The per-category title table of `extractChatInsights`. -/
def chatTitles : List (String × String) :=
  [("growth", "Growth Opportunity"), ("profit", "Profit Enhancement"),
   ("cost", "Cost Saving Opportunity"), ("risk", "Risk Management"),
   ("market", "Market Intelligence"), ("seasonal", "Seasonal Planning"),
   ("resource", "Resource Optimization")]

/-- The candidate emitted for a non-empty category bucket. -/
def chatCand (now : Nat) (cat : String) (topSentence : List Char) : Recommendation :=
  { id := s!"chat-{cat}-{now}",
    type := chatTypeFor cat,
    title := (List.lookup cat chatTitles).getD "AI Insight",
    description := String.mk topSentence,
    confidence := 0.6,
    source := "chat",
    createdAt := now }

/-- `extractChatInsights` of `index.mjs`: filter to assistant messages,
sort by recency, take 10, bucket keyword-matching sentences by category,
then emit one confidence-0.60 `chat` candidate per non-empty category. -/
def extractChatInsights (now : Nat) (messages : List ChatMessage) : List Recommendation :=
  let sortedMessages :=
    List.insertionSort msgRecencyLe (messages.filter (fun m => m.role == "assistant"))
  let recentMessages := sortedMessages.take 10
  chatCategoryOrder.filterMap fun cat =>
    match categoryBucket recentMessages cat with
    | [] => none
    | topSentence :: _ => some (chatCand now cat topSentence)

/-! ### Seasonal advisor -/

/-- The season enum accepted by `addSeasonalRecommendations`. -/
inductive Season
  | spring
  | summer
  | fall
  | winter
  deriving DecidableEq

/-- The season's name as interpolated into ids and descriptions. -/
def Season.str : Season → String
  | .spring => "spring"
  | .summer => "summer"
  | .fall => "fall"
  | .winter => "winter"

/-- `charAt(0).toUpperCase() + slice(1)` of the season name. -/
def Season.capitalized : Season → String
  | .spring => "Spring"
  | .summer => "Summer"
  | .fall => "Fall"
  | .winter => "Winter"

/-- The static `seasonalCrops` table. -/
def seasonalCrops : Season → List String
  | .spring => ["Corn", "Soybeans", "Rice", "Cotton", "Vegetables"]
  | .summer => ["Sunflower", "Sorghum", "Millet", "Vegetables", "Fruits"]
  | .fall => ["Winter Wheat", "Barley", "Rapeseed", "Root vegetables"]
  | .winter => ["Planning", "Equipment maintenance", "Soil preparation"]

/-- The static `seasonalActivities` table. -/
def seasonalActivities : Season → List String
  | .spring => ["Planting", "Soil preparation", "Fertilizing", "Pest management planning"]
  | .summer => ["Irrigation management", "Pest control", "Crop monitoring", "Early harvest planning"]
  | .fall => ["Harvesting", "Storage preparation", "Market research", "Winter crop planting"]
  | .winter => ["Equipment maintenance", "Financial planning", "Education", "Crop planning"]

/-- The crop-focus candidate pushed by `addSeasonalRecommendations`. -/
def seasonalCropCand (now : Nat) (s : Season) : Recommendation :=
  let sn := s.str
  let cap := s.capitalized
  let cropList := String.intercalate ", " (seasonalCrops s)
  { id := s!"seasonal-crop-{now}", type := "crop",
    title := s!"{cap} Crop Recommendations",
    description := s!"Consider focusing on these crops this {sn}: {cropList}.",
    confidence := 0.7, source := "seasonal", createdAt := now }

/-- The activity-focus candidate pushed by
`addSeasonalRecommendations`. -/
def seasonalActivityCand (now : Nat) (s : Season) : Recommendation :=
  let sn := s.str
  let cap := s.capitalized
  let actList := String.intercalate ", " (seasonalActivities s)
  { id := s!"seasonal-activity-{now}", type := "business",
    title := s!"{cap} Activity Focus",
    description := s!"Key activities for this {sn}: {actList}.",
    confidence := 0.7, source := "seasonal", createdAt := now }

/-- `addSeasonalRecommendations` of `index.mjs`. -/
def addSeasonalRecommendations (now : Nat) (currentSeason : Option Season) :
    List Recommendation :=
  match currentSeason with
  | none => []
  | some s => [seasonalCropCand now s, seasonalActivityCand now s]

/-! ### Engine facade `generateRecommendations` -/

/-- The input bundle of `generateRecommendations`. -/
structure RecommendationInput where
  userId : String
  analysisResults : List AnalysisResult
  chatHistory : List ChatMessage
  currentSeason : Option Season := none

/-- The value returned by `generateRecommendations` (the `data` payloads
of the contained candidates are omitted as everywhere else). -/
structure GeneratedSet where
  id : String
  userId : String
  recommendations : List Recommendation
  summary : String
  createdAt : Nat
  deriving DecidableEq

/-- The fixed zero-candidate fallback summary of
`generateRecommendations`. -/
def fallbackSummary : String :=
  "Insufficient data for personalized recommendations. Continue using Arina to analyze your agricultural business for tailored insights."

/-- The summary built in the `topRecs.length > 0` branch of
`generateRecommendations`. -/
def buildSummary (input : RecommendationInput) (topRecs : List Recommendation) : String :=
  let businessRec := topRecs.find? (fun r => r.type == "business")
  let marketRec := topRecs.find? (fun r => r.type == "market")
  let resourceRec := topRecs.find? (fun r => r.type == "resource")
  let cropRec := topRecs.find? (fun r => r.type == "crop")
  let businessCount := (input.analysisResults.filter (fun r => r.type == "business_feasibility")).length
  let forecastCount := (input.analysisResults.filter (fun r => r.type == "demand_forecast")).length
  let optimizationCount := (input.analysisResults.filter (fun r => r.type == "optimization")).length
  let opener :=
    if 0 < businessCount ∨ 0 < forecastCount ∨ 0 < optimizationCount then
      "Based on your " ++
        (if 0 < businessCount then "business feasibility analysis, " else "") ++
        (if 0 < forecastCount then "demand forecasting, " else "") ++
        (if 0 < optimizationCount then "optimization analysis, " else "") ++
        "we recommend: "
    else
      "Based on your historical data, we recommend: "
  let withReps := opener ++
    (match businessRec with | some r => r.title ++ ". " | none => "") ++
    (match marketRec with | some r => r.title ++ ". " | none => "") ++
    (match resourceRec with | some r => r.title ++ ". " | none => "") ++
    (match cropRec with | some r => r.title ++ ". " | none => "")
  match input.currentSeason with
  | some se =>
    let sn := se.str
    withReps ++ s!"Consider adjusting your strategy for the {sn} season."
  | none => withReps

/-- `generateRecommendations` of `index.mjs`: shared recency truncation
to 10, the five candidate sources concatenated in order, the two-pass
ranking, truncation to 10, and the summary over the top 5. -/
def generateRecommendations (now : Nat) (input : RecommendationInput) : GeneratedSet :=
  let sortedResults := (sortByRecency input.analysisResults).take 10
  let businessRecs := extractBusinessRecommendations now sortedResults
  let forecastRecs := extractForecastRecommendations now sortedResults
  let optimizationRecs := extractOptimizationRecommendations now sortedResults
  let chatRecs := extractChatInsights now input.chatHistory
  let seasonalRecs := addSeasonalRecommendations now input.currentSeason
  let allRecommendations :=
    businessRecs ++ forecastRecs ++ optimizationRecs ++ chatRecs ++ seasonalRecs
  let ranked := rankRecommendations allRecommendations
  let finalRecommendations := ranked.take 10
  let topRecs := finalRecommendations.take 5
  let summary :=
    if 0 < topRecs.length then buildSummary input topRecs else fallbackSummary
  { id := s!"rec-set-{now}",
    userId := input.userId,
    recommendations := finalRecommendations,
    summary := summary,
    createdAt := now }

/-! ### Persistence adapter: `createRecommendationSet` -/

/-- The caller-supplied document passed to
`DatabaseStorage.createRecommendationSet` (every field optional: it is
spread over the store defaults). -/
structure SetData where
  id : Option String := none
  user_id : Option String := none
  summary : Option String := none
  created_at : Option Nat := none
  deriving DecidableEq

/-- A stored `recommendation_sets` row. -/
structure RecommendationSetRow where
  id : String
  user_id : Option String
  summary : Option String
  created_at : Nat
  deriving DecidableEq

/-- `DatabaseStorage.createRecommendationSet` of `index.mjs`:
`{ id: v4(), ...setData, created_at: new Date() }` — the fresh UUID
(`freshId`) is listed before the spread, so a caller-supplied `id`
overwrites it; `created_at` is listed after the spread, so the store
clock always wins. -/
def createRecommendationSet (freshId : String) (now : Nat) (setData : SetData) :
    RecommendationSetRow :=
  { id := setData.id.getD freshId,
    user_id := setData.user_id,
    summary := setData.summary,
    created_at := now }

/-! ### Concrete example inputs for counterexamples and witnesses -/

/-- The clock-independent projection of a candidate (everything except
the wall-clock-derived `id` and `createdAt`). -/
def stripClock (c : Recommendation) : String × String × String × ℚ × String :=
  (c.type, c.title, c.description, c.confidence, c.source)

/-- A demand-forecast record carrying only an accuracy object with the
given MAPE. -/
def mapeRecord (m : ℚ) : AnalysisResult :=
  { id := "f1", type := "demand_forecast",
    data := { accuracy := some { mape := some m } } }

/-- A demand-forecast record carrying only a forecast series. -/
def forecastListRecord (fs : List ℚ) : AnalysisResult :=
  { id := "f2", type := "demand_forecast", data := { forecasted := some fs } }

/-- An optimization record carrying only a `feasible` flag (or none). -/
def optRecord (fb : Option Bool) : AnalysisResult :=
  { id := "o1", type := "optimization", data := { feasible := fb } }

/-- A same-day pair for the ranking theorems: confidence 0.6 created at
millisecond 100. -/
def lowConfCand : Recommendation :=
  { id := "low", type := "business", title := "Low", description := "",
    confidence := 0.6, source := "analysis", createdAt := 100 }

/-- Confidence 0.9 created at millisecond 50 (same calendar day as
`lowConfCand`, earlier time). -/
def highConfCand : Recommendation :=
  { id := "high", type := "business", title := "High", description := "",
    confidence := 0.9, source := "analysis", createdAt := 50 }

/-- Caller-supplied set data carrying its own `id` and `created_at`. -/
def callerSetData : SetData :=
  { id := some "caller-chosen-id", user_id := some "u1",
    summary := some "s", created_at := some 123 }

/-- An assistant chat message mentioning the `risk` keyword. -/
def riskMessage : ChatMessage :=
  { role := "assistant", content := "There is risk.".toList, created_at := some 5 }

/-- Day-antitone pair relation (calendar days never increase along the
list); holds for every output of the first ranking pass. -/
def dayGe (a b : Recommendation) : Prop := dayOf b ≤ dayOf a

/-- Lexicographic confidence-then-time descending comparator; the order
in which one calendar-day run ends up after the two ranking passes. -/
def confTimeLe (a b : Recommendation) : Prop :=
  b.confidence < a.confidence ∨
    (b.confidence = a.confidence ∧ b.createdAt ≤ a.createdAt)

/-! ## Theorems -/

/-- C4: for every input bundle, the ranked candidate list returned by
`generateRecommendations` contains at most 10 candidates (it is
`List.take 10` of the ranked merge). -/
theorem c4_truncation_invariant (now : Nat) (input : RecommendationInput) :
    (generateRecommendations now input).recommendations.length ≤ 10 :=
  List.length_take_le 10 _

/-- C6: the seasonal advisor yields no candidates when the season is
absent and, for each of the four seasons, exactly two candidates: the
crop-focus one (type `crop`, confidence 0.70, source `seasonal`, listing
the curated crops) followed by the activity-focus one (type `business`,
confidence 0.70, source `seasonal`, listing the curated activities);
apart from the wall-clock-derived `id`/`createdAt` fields its output is
a function of the season alone. -/
theorem c6_seasonal_advisor :
    (∀ now : Nat, addSeasonalRecommendations now none = []) ∧
    (∀ (now : Nat) (s : Season),
      addSeasonalRecommendations now (some s) =
          [seasonalCropCand now s, seasonalActivityCand now s] ∧
        (seasonalCropCand now s).type = "crop" ∧
        (seasonalCropCand now s).confidence = 0.7 ∧
        (seasonalCropCand now s).source = "seasonal" ∧
        (seasonalCropCand now s).description =
          "Consider focusing on these crops this " ++ s.str ++ ": " ++
            String.intercalate ", " (seasonalCrops s) ++ "." ∧
        (seasonalActivityCand now s).type = "business" ∧
        (seasonalActivityCand now s).confidence = 0.7 ∧
        (seasonalActivityCand now s).source = "seasonal" ∧
        (seasonalActivityCand now s).description =
          "Key activities for this " ++ s.str ++ ": " ++
            String.intercalate ", " (seasonalActivities s) ++ ".") ∧
    (∀ (now nowAlt : Nat) (os : Option Season),
      (addSeasonalRecommendations now os).map stripClock =
        (addSeasonalRecommendations nowAlt os).map stripClock) := by
  refine ⟨fun _ => rfl, fun now s => ?_, fun now nowAlt os => ?_⟩
  · cases s <;>
      exact ⟨rfl, rfl, rfl, rfl, rfl, rfl, rfl, rfl, rfl⟩
  · cases os with
    | none => rfl
    | some s => cases s <;> rfl

/-- C7: for every optimization record, `feasible === false` yields
exactly one candidate, titled "Resource Constraints Too Tight" with
confidence 0.90, and an absent `feasible` yields no candidate at all. -/
theorem c7_optimization_feasible_flag (now : Nat) (r : AnalysisResult) :
    (r.data.feasible = some false →
      optimizationRecsFor now r = [optInfeasibleCand now r] ∧
      (optInfeasibleCand now r).title = "Resource Constraints Too Tight" ∧
      (optInfeasibleCand now r).confidence = 0.9) ∧
    (r.data.feasible = none → optimizationRecsFor now r = []) := by
  constructor
  · intro h
    refine ⟨?_, rfl, rfl⟩
    simp only [optimizationRecsFor, h]
  · intro h
    simp only [optimizationRecsFor, h]

/-- Witness for C7 at concrete records. -/
theorem c7_witness :
    optimizationRecsFor 3 (optRecord (some false)) =
        [optInfeasibleCand 3 (optRecord (some false))] ∧
      optimizationRecsFor 3 (optRecord none) = [] :=
  ⟨((c7_optimization_feasible_flag 3 (optRecord (some false))).1 rfl).1,
   (c7_optimization_feasible_flag 3 (optRecord none)).2 rfl⟩

/-- C9 counterexample: `createRecommendationSet` spreads the caller
document after the fresh id, so a caller-supplied `id` overrides the
fresh one — the stored id is not assigned by the store. -/
theorem c9_counterexample :
    (createRecommendationSet "fresh-uuid" 999 callerSetData).id = "caller-chosen-id" ∧
    "caller-chosen-id" ≠ "fresh-uuid" :=
  ⟨rfl, by decide⟩

/-- C9 amended: the creation time of the stored set is always assigned
by the store, but the id is taken from the caller-supplied data when
present; only when the caller omits `id` does the store's fresh id
survive. -/
theorem c9_amended (freshId : String) (now : Nat) (sd : SetData) :
    (createRecommendationSet freshId now sd).created_at = now ∧
    (createRecommendationSet freshId now sd).id = sd.id.getD freshId ∧
    (sd.id = none → (createRecommendationSet freshId now sd).id = freshId) := by
  refine ⟨rfl, rfl, fun h => ?_⟩
  simp [createRecommendationSet, h]

/-- Witness for C9 (amended) at a concrete caller document without an
id. -/
theorem c9_amended_witness :
    (createRecommendationSet "fresh-uuid" 5 {}).created_at = 5 ∧
    (createRecommendationSet "fresh-uuid" 5 {}).id = "fresh-uuid" :=
  ⟨(c9_amended "fresh-uuid" 5 {}).1, (c9_amended "fresh-uuid" 5 {}).2.2 rfl⟩

/-- C5: the empty input bundle (no analysis results, no chat history, no
season) yields an empty candidate list and the fixed fallback summary;
moreover every input whose final candidate list is empty gets exactly
that fallback summary. -/
theorem c5_empty_input_fallback :
    ((generateRecommendations 0 ⟨"user", [], [], none⟩).recommendations = [] ∧
     (generateRecommendations 0 ⟨"user", [], [], none⟩).summary = fallbackSummary) ∧
    (∀ (now : Nat) (input : RecommendationInput),
      (generateRecommendations now input).recommendations = [] →
      (generateRecommendations now input).summary = fallbackSummary) := by
  refine ⟨⟨rfl, rfl⟩, fun now input h => ?_⟩
  simp only [generateRecommendations] at h ⊢
  rw [h]
  rfl

/-- Witness for the conditional part of C5, at the empty bundle. -/
theorem c5_witness :
    (generateRecommendations 1 ⟨"u2", [], [], none⟩).summary = fallbackSummary :=
  c5_empty_input_fallback.2 1 ⟨"u2", [], [], none⟩ rfl

/-- C2 counterexample: a present MAPE of exactly 0 is less than 10, yet
the record yields no accuracy candidate at all (the JS truthiness guard
`data.accuracy.mape &&` rejects the value 0), contradicting the claim
that every present MAPE below 10 emits the high-reliability
candidate. -/
theorem c2_counterexample :
    (mapeRecord 0).data.accuracy = some { mape := some (0 : ℚ) } ∧
    ((0 : ℚ) < 10) ∧
    forecastRecsFor 7 (mapeRecord 0) = [] :=
  ⟨rfl, by norm_num, rfl⟩

/-- C2 amended: for a present MAPE `m`, the extractor emits the
high-reliability candidate (confidence 0.80) when `m` is nonzero and
below 10, the uncertainty-alert candidate (confidence 0.70) when `m`
exceeds 20, and nothing when `m` lies between 10 and 20 inclusive or
when `m = 0` (truthiness). -/
theorem c2_amended (now : Nat) (r : AnalysisResult) (acc : AccuracyInfo) (m : ℚ)
    (hacc : r.data.accuracy = some acc) (hm : acc.mape = some m) :
    (m ≠ 0 → m < 10 →
      forecastAccuracyRecsFor now r = [forecastHighRelCand now r m] ∧
      (forecastHighRelCand now r m).confidence = 0.8) ∧
    (20 < m →
      forecastAccuracyRecsFor now r = [forecastUncertainCand now r m] ∧
      (forecastUncertainCand now r m).confidence = 0.7) ∧
    (10 ≤ m → m ≤ 20 → forecastAccuracyRecsFor now r = []) ∧
    (m = 0 → forecastAccuracyRecsFor now r = []) ∧
    forecastRecsFor now r =
      forecastGrowthRecsFor now r ++ forecastSeasonalRecsFor now r ++
        forecastAccuracyRecsFor now r := by
  have hun : forecastAccuracyRecsFor now r =
      (if m ≠ 0 ∧ m < 10 then [forecastHighRelCand now r m]
       else if m ≠ 0 ∧ 20 < m then [forecastUncertainCand now r m] else []) := by
    simp only [forecastAccuracyRecsFor, hacc, hm]
  refine ⟨?_, ?_, ?_, ?_, by simp [forecastRecsFor, List.append_assoc]⟩
  · intro h1 h2
    rw [hun, if_pos ⟨h1, h2⟩]
    exact ⟨rfl, rfl⟩
  · intro h
    have h0 : m ≠ 0 := ne_of_gt (by linarith)
    have hn : ¬ (m ≠ 0 ∧ m < 10) := by
      rintro ⟨-, hlt⟩
      linarith
    rw [hun, if_neg hn, if_pos ⟨h0, h⟩]
    exact ⟨rfl, rfl⟩
  · intro h1 h2
    have hn : ¬ (m ≠ 0 ∧ m < 10) := by
      rintro ⟨-, hlt⟩
      linarith
    have hn2 : ¬ (m ≠ 0 ∧ 20 < m) := by
      rintro ⟨-, hlt⟩
      linarith
    rw [hun, if_neg hn, if_neg hn2]
  · intro h
    have hn : ¬ (m ≠ 0 ∧ m < 10) := fun hc => hc.1 h
    have hn2 : ¬ (m ≠ 0 ∧ 20 < m) := fun hc => hc.1 h
    rw [hun, if_neg hn, if_neg hn2]

/-- Witness for C2 (amended) at MAPE values 5, 25, 15 and 0. -/
theorem c2_amended_witness :
    forecastAccuracyRecsFor 0 (mapeRecord 5) =
        [forecastHighRelCand 0 (mapeRecord 5) 5] ∧
      forecastAccuracyRecsFor 0 (mapeRecord 25) =
        [forecastUncertainCand 0 (mapeRecord 25) 25] ∧
      forecastAccuracyRecsFor 0 (mapeRecord 15) = [] ∧
      forecastAccuracyRecsFor 0 (mapeRecord 0) = [] :=
  ⟨((c2_amended 0 (mapeRecord 5) _ 5 rfl rfl).1 (by norm_num) (by norm_num)).1,
   ((c2_amended 0 (mapeRecord 25) _ 25 rfl rfl).2.1 (by norm_num)).1,
   (c2_amended 0 (mapeRecord 15) _ 15 rfl rfl).2.2.1 (by norm_num) (by norm_num),
   (c2_amended 0 (mapeRecord 0) _ 0 rfl rfl).2.2.2.1 rfl⟩

/-- C3: the growth/decline rule requires at least two forecast points
and uses strict inequalities on the relative change between the first
and last entries: a change of exactly +0.10 or -0.10 yields no
candidate, a change above +0.10 yields the growth candidate (confidence
0.75) and a change below -0.10 yields the decline candidate (confidence
0.75).  The relative-change statements assume a nonzero first entry,
without which the relative change is not a finite number. -/
theorem c3_growth_decline_strictness (now : Nat) (r : AnalysisResult) (fs : List ℚ)
    (hfs : r.data.forecasted = some fs) :
    (fs.length < 2 → forecastGrowthRecsFor now r = []) ∧
    (2 ≤ fs.length → fs.headD 0 ≠ 0 →
      ((forecastRate fs = 0.1 ∨ forecastRate fs = -0.1) →
        forecastGrowthRecsFor now r = []) ∧
      (0.1 < forecastRate fs →
        forecastGrowthRecsFor now r = [forecastGrowthCand now r (forecastRate fs)] ∧
        (forecastGrowthCand now r (forecastRate fs)).confidence = 0.75) ∧
      (forecastRate fs < -0.1 →
        forecastGrowthRecsFor now r = [forecastDeclineCand now r (forecastRate fs)] ∧
        (forecastDeclineCand now r (forecastRate fs)).confidence = 0.75)) := by
  have hun : forecastGrowthRecsFor now r =
      (if 1 < fs.length then
        if (if fs.headD 0 ≠ 0 then 0.1 < forecastRate fs else 0 < fs.getLastD 0) then
          [forecastGrowthCand now r (forecastRate fs)]
        else if (if fs.headD 0 ≠ 0 then forecastRate fs < -0.1 else fs.getLastD 0 < 0) then
          [forecastDeclineCand now r (forecastRate fs)]
        else []
      else []) := by
    simp only [forecastGrowthRecsFor, hfs]
  constructor
  · intro h
    rw [hun, if_neg (by omega)]
  · intro hlen hne
    have h1 : 1 < fs.length := by omega
    have hun2 : forecastGrowthRecsFor now r =
        (if 0.1 < forecastRate fs then [forecastGrowthCand now r (forecastRate fs)]
         else if forecastRate fs < -0.1 then [forecastDeclineCand now r (forecastRate fs)]
         else []) := by
      rw [hun, if_pos h1]
      simp only [if_pos hne]
    refine ⟨?_, ?_, ?_⟩
    · rintro (h | h)
      · rw [hun2, if_neg (by rw [h]; norm_num), if_neg (by rw [h]; norm_num)]
      · rw [hun2, if_neg (by rw [h]; norm_num), if_neg (by rw [h]; norm_num)]
    · intro h
      rw [hun2, if_pos h]
      exact ⟨rfl, rfl⟩
    · intro h
      have hn : ¬ (0.1 < forecastRate fs) := by linarith
      rw [hun2, if_neg hn, if_pos h]
      exact ⟨rfl, rfl⟩

/-- Witness for C3 at the series [10, 11] (+10 percent exactly),
[10, 9] (-10 percent exactly), [10, 12] (+20 percent), [10, 8]
(-20 percent) and the one-point series [10]. -/
theorem c3_witness :
    forecastGrowthRecsFor 0 (forecastListRecord [10, 11]) = [] ∧
    forecastGrowthRecsFor 0 (forecastListRecord [10, 9]) = [] ∧
    forecastGrowthRecsFor 0 (forecastListRecord [10, 12]) =
      [forecastGrowthCand 0 (forecastListRecord [10, 12]) (forecastRate [10, 12])] ∧
    forecastGrowthRecsFor 0 (forecastListRecord [10, 8]) =
      [forecastDeclineCand 0 (forecastListRecord [10, 8]) (forecastRate [10, 8])] ∧
    forecastGrowthRecsFor 0 (forecastListRecord [10]) = [] := by
  refine ⟨?_, ?_, ?_, ?_, ?_⟩
  · exact ((c3_growth_decline_strictness 0 _ [10, 11] rfl).2 (by norm_num) (by norm_num)).1
      (Or.inl (by norm_num [forecastRate]))
  · exact ((c3_growth_decline_strictness 0 _ [10, 9] rfl).2 (by norm_num) (by norm_num)).1
      (Or.inr (by norm_num [forecastRate]))
  · exact (((c3_growth_decline_strictness 0 _ [10, 12] rfl).2 (by norm_num) (by norm_num)).2.1
      (by norm_num [forecastRate])).1
  · exact (((c3_growth_decline_strictness 0 _ [10, 8] rfl).2 (by norm_num) (by norm_num)).2.2
      (by norm_num [forecastRate])).1
  · exact (c3_growth_decline_strictness 0 _ [10] rfl).1 (by norm_num)

/-! ### Structure of the two-pass ranking

The second ranking pass compares calendar-day strings and breaks
same-day ties by confidence, returning "equal" for candidates on
different days.  On the output of the first pass (time-descending, hence
day-antitone, hence with each calendar day forming one contiguous run)
the second pass therefore sorts each day run by confidence and leaves
the relative order of distinct runs untouched.  The lemmas below
establish exactly that decomposition and the facts needed to iterate
it. -/

theorem dayOf_le_of_timeLe {a b : Recommendation} (h : timeLe a b) : dayOf b ≤ dayOf a :=
  Nat.div_le_div_right h

theorem createdAt_lt_of_dayOf_lt {a b : Recommendation} (h : dayOf b < dayOf a) :
    b.createdAt < a.createdAt := by
  by_contra hc
  push_neg at hc
  have h2 := Nat.div_le_div_right (c := msPerDay) hc
  simp only [dayOf] at h
  omega

/-- Inserting `x` into `A ++ B` walks only `A` when `x` may be placed
before the head of `B`; on `A` the insertion decisions of `R` and `R'`
agree, so the insertion restricts to `A`. -/
theorem orderedInsert_append_split (R S : Recommendation → Recommendation → Prop)
    [DecidableRel R] [DecidableRel S] (x : Recommendation) (A B : List Recommendation)
    (hA : ∀ y ∈ A, R x y ↔ S x y)
    (hB : ∀ b ∈ B.head?, R x b) :
    List.orderedInsert R x (A ++ B) = List.orderedInsert S x A ++ B := by
  induction A with
  | nil =>
    simp only [List.nil_append, List.orderedInsert_nil]
    cases B with
    | nil => rfl
    | cons b B' =>
      rw [List.orderedInsert, if_pos (hB b rfl)]
      rfl
  | cons a A' ih =>
    have hiff := hA a (List.mem_cons_self a A')
    by_cases h : S x a
    · rw [List.cons_append, List.orderedInsert, if_pos (hiff.mpr h),
        List.orderedInsert, if_pos h, List.cons_append]
      rfl
    · rw [List.cons_append, List.orderedInsert, if_neg (fun hr => h (hiff.mp hr)),
        List.orderedInsert, if_neg h,
        ih (fun y hy => hA y (List.mem_cons_of_mem a hy)), List.cons_append]

theorem dayRuns_nil : dayRuns [] = [] := by
  rw [dayRuns]

theorem dayRuns_cons (x : Recommendation) (xs : List Recommendation) :
    dayRuns (x :: xs) =
      (x :: xs.takeWhile (fun y => dayOf y == dayOf x)) ::
        dayRuns (xs.dropWhile (fun y => dayOf y == dayOf x)) := by
  rw [dayRuns]

theorem dayRuns_flatten : ∀ l : List Recommendation, (dayRuns l).flatten = l
  | [] => by rw [dayRuns_nil]; rfl
  | x :: xs => by
    rw [dayRuns_cons, List.flatten_cons,
      dayRuns_flatten (xs.dropWhile (fun y => dayOf y == dayOf x))]
    simp [List.takeWhile_append_dropWhile]
termination_by l => l.length
decreasing_by
  simp only [List.length_cons]
  exact Nat.lt_succ_of_le (List.dropWhile_sublist _).length_le

theorem mem_of_mem_dayRuns {l run : List Recommendation} (hr : run ∈ dayRuns l) {a}
    (ha : a ∈ run) : a ∈ l := by
  have h := List.mem_flatten.mpr ⟨run, hr, ha⟩
  rwa [dayRuns_flatten] at h

theorem dayRuns_ne_nil : ∀ l : List Recommendation, ∀ run ∈ dayRuns l, run ≠ []
  | [] => by rw [dayRuns_nil]; intro run hr; cases hr
  | x :: xs => by
    rw [dayRuns_cons]
    intro run hrun
    rcases List.mem_cons.mp hrun with rfl | hr
    · exact List.cons_ne_nil _ _
    · exact dayRuns_ne_nil _ run hr
termination_by l => l.length
decreasing_by
  simp only [List.length_cons]
  exact Nat.lt_succ_of_le (List.dropWhile_sublist _).length_le

theorem dayOf_eq_of_mem_takeWhile {d : Nat} :
    ∀ {l : List Recommendation} {c : Recommendation},
      c ∈ l.takeWhile (fun y => dayOf y == d) → dayOf c = d
  | [], c, h => by simp at h
  | a :: l', c, h => by
    rw [List.takeWhile_cons] at h
    by_cases ha : dayOf a = d
    · rw [if_pos (beq_iff_eq.mpr ha)] at h
      rcases List.mem_cons.mp h with rfl | h'
      · exact ha
      · exact dayOf_eq_of_mem_takeWhile h'
    · rw [if_neg (by simpa using ha)] at h
      cases h

theorem dayRuns_day_eq : ∀ l : List Recommendation, ∀ run ∈ dayRuns l,
    ∀ a ∈ run, ∀ b ∈ run, dayOf a = dayOf b
  | [] => by rw [dayRuns_nil]; intro run hr; cases hr
  | x :: xs => by
    rw [dayRuns_cons]
    intro run hrun a ha b hb
    rcases List.mem_cons.mp hrun with rfl | hr
    · have key : ∀ c ∈ x :: xs.takeWhile (fun y => dayOf y == dayOf x),
          dayOf c = dayOf x := by
        intro c hc
        rcases List.mem_cons.mp hc with rfl | hc'
        · rfl
        · exact dayOf_eq_of_mem_takeWhile hc'
      rw [key a ha, key b hb]
    · exact dayRuns_day_eq _ run hr a ha b hb
termination_by l => l.length
decreasing_by
  simp only [List.length_cons]
  exact Nat.lt_succ_of_le (List.dropWhile_sublist _).length_le

theorem dayRuns_sublist : ∀ l : List Recommendation, ∀ run ∈ dayRuns l, List.Sublist run l
  | [] => by rw [dayRuns_nil]; intro run hr; cases hr
  | x :: xs => by
    rw [dayRuns_cons]
    intro run hrun
    rcases List.mem_cons.mp hrun with rfl | hr
    · exact (List.takeWhile_sublist _).cons₂ x
    · exact ((dayRuns_sublist _ run hr).trans (List.dropWhile_sublist _)).cons x
termination_by l => l.length
decreasing_by
  simp only [List.length_cons]
  exact Nat.lt_succ_of_le (List.dropWhile_sublist _).length_le

theorem day_lt_of_mem_dropWhile {d : Nat} :
    ∀ {l : List Recommendation}, l.Pairwise dayGe → (∀ w ∈ l, dayOf w ≤ d) →
      ∀ z ∈ l.dropWhile (fun w => dayOf w == d), dayOf z < d
  | [], _, _, z, hz => by simp at hz
  | w :: l', hp, hub, z, hz => by
    rw [List.dropWhile_cons] at hz
    by_cases hw : dayOf w = d
    · rw [if_pos (beq_iff_eq.mpr hw)] at hz
      exact day_lt_of_mem_dropWhile hp.of_cons
        (fun u hu => hub u (List.mem_cons_of_mem _ hu)) z hz
    · rw [if_neg (by simpa using hw)] at hz
      have hwd : dayOf w < d := lt_of_le_of_ne (hub w (List.mem_cons_self _ _)) hw
      rcases List.mem_cons.mp hz with rfl | hz'
      · exact hwd
      · exact lt_of_le_of_lt ((List.pairwise_cons.mp hp).1 z hz') hwd

/-- The second ranking pass on a day-antitone list is the per-day-run
confidence sort: runs are sorted internally (stably, by confidence
descending) and the run order is untouched. -/
theorem pass2_runs : ∀ l : List Recommendation, l.Pairwise dayGe →
    List.insertionSort dayConfLe l =
      ((dayRuns l).map (List.insertionSort confLe)).flatten
  | [], _ => by rw [dayRuns_nil]; rfl
  | x :: xs, hp => by
    have hxs : xs.Pairwise dayGe := hp.of_cons
    have hx : ∀ w ∈ xs, dayOf w ≤ dayOf x := fun w hw => (List.pairwise_cons.mp hp).1 w hw
    rw [List.insertionSort, pass2_runs xs hxs]
    cases xs with
    | nil =>
      simp [dayRuns_cons, dayRuns_nil]
    | cons y ys =>
      by_cases hd : dayOf y = dayOf x
      · -- x joins the first run of `y :: ys`
        have hpred : (fun z => dayOf z == dayOf y) = (fun z => dayOf z == dayOf x) := by
          funext z
          rw [hd]
        rw [dayRuns_cons y ys, hpred, dayRuns_cons x (y :: ys),
          List.takeWhile_cons, if_pos (beq_iff_eq.mpr hd)]
        rw [List.dropWhile_cons, if_pos (beq_iff_eq.mpr hd)]
        rw [List.map_cons, List.flatten_cons, List.map_cons, List.flatten_cons]
        rw [orderedInsert_append_split dayConfLe confLe x _ _ ?hA ?hB]
        · rfl
        case hA =>
          intro z hz
          have hz' : z ∈ y :: List.takeWhile (fun z => dayOf z == dayOf x) ys :=
            (List.mem_insertionSort confLe).mp hz
          have hzd : dayOf z = dayOf x := by
            rcases List.mem_cons.mp hz' with rfl | hz''
            · exact hd
            · exact dayOf_eq_of_mem_takeWhile hz''
          constructor
          · intro h
            exact h hzd.symm
          · intro h _
            exact h
        case hB =>
          intro b hb
          have hb1 : b ∈ (List.map (List.insertionSort confLe)
              (dayRuns (List.dropWhile (fun z => dayOf z == dayOf x) ys))).flatten :=
            List.mem_of_mem_head? hb
          obtain ⟨L, hL, hbL⟩ := List.mem_flatten.mp hb1
          obtain ⟨run, hrun, rfl⟩ := List.mem_map.mp hL
          have hbrun : b ∈ run := (List.mem_insertionSort confLe).mp hbL
          have hbdrop : b ∈ List.dropWhile (fun z => dayOf z == dayOf x) ys :=
            mem_of_mem_dayRuns hrun hbrun
          have hblt : dayOf b < dayOf x :=
            day_lt_of_mem_dropWhile hxs.of_cons
              (fun w hw => hx w (List.mem_cons_of_mem _ hw)) b hbdrop
          intro heq
          exact absurd heq.symm (Nat.ne_of_lt hblt)
      · -- x opens a fresh singleton run
        rw [dayRuns_cons x (y :: ys), List.takeWhile_cons, if_neg (by simpa using hd),
          List.dropWhile_cons, if_neg (by simpa using hd)]
        rw [List.map_cons, List.flatten_cons]
        have hall : ∀ b ∈ y :: ys, dayOf b < dayOf x := by
          intro b hb
          rcases List.mem_cons.mp hb with rfl | hb'
          · exact lt_of_le_of_ne (hx b (List.mem_cons_self _ _)) hd
          · have h1 : dayOf b ≤ dayOf y := (List.pairwise_cons.mp hxs).1 b hb'
            have h2 : dayOf y < dayOf x :=
              lt_of_le_of_ne (hx y (List.mem_cons_self _ _)) hd
            exact lt_of_le_of_lt h1 h2
        have hB2 : ∀ b ∈ ((List.map (List.insertionSort confLe)
            (dayRuns (y :: ys))).flatten).head?, dayConfLe x b := by
          intro b hb
          have hb1 : b ∈ (List.map (List.insertionSort confLe) (dayRuns (y :: ys))).flatten :=
            List.mem_of_mem_head? hb
          obtain ⟨L, hL, hbL⟩ := List.mem_flatten.mp hb1
          obtain ⟨run, hrun, rfl⟩ := List.mem_map.mp hL
          have hbys : b ∈ y :: ys :=
            mem_of_mem_dayRuns hrun ((List.mem_insertionSort confLe).mp hbL)
          intro heq
          exact absurd heq.symm (Nat.ne_of_lt (hall b hbys))
        have hsplit := orderedInsert_append_split dayConfLe confLe x []
          ((List.map (List.insertionSort confLe) (dayRuns (y :: ys))).flatten)
          (fun u hu => absurd hu (List.not_mem_nil u)) hB2
        simpa using hsplit

theorem takeWhile_append_all {α : Type} {p : α → Bool} :
    ∀ {A B : List α}, (∀ a ∈ A, p a) → (A ++ B).takeWhile p = A ++ B.takeWhile p
  | [], _, _ => rfl
  | a :: A', B, h => by
    rw [List.cons_append, List.takeWhile_cons, if_pos (h a (List.mem_cons_self _ _)),
      takeWhile_append_all (fun u hu => h u (List.mem_cons_of_mem _ hu)), List.cons_append]

theorem dropWhile_append_all {α : Type} {p : α → Bool} :
    ∀ {A B : List α}, (∀ a ∈ A, p a) → (A ++ B).dropWhile p = B.dropWhile p
  | [], _, _ => rfl
  | a :: A', B, h => by
    rw [List.cons_append, List.dropWhile_cons, if_pos (h a (List.mem_cons_self _ _)),
      dropWhile_append_all (fun u hu => h u (List.mem_cons_of_mem _ hu))]

/-- Recovering the runs: `dayRuns` of a concatenation of nonempty
constant-day blocks with strictly decreasing days is that block list. -/
theorem dayRuns_flatten_of_runs :
    ∀ (L : List (List Recommendation)),
      (∀ r ∈ L, r ≠ []) →
      (∀ r ∈ L, ∀ a ∈ r, ∀ b ∈ r, dayOf a = dayOf b) →
      L.Pairwise (fun r s => ∀ a ∈ r, ∀ b ∈ s, dayOf b < dayOf a) →
      dayRuns L.flatten = L
  | [], _, _, _ => by rw [List.flatten_nil, dayRuns_nil]
  | r :: L', hne, hcd, hlt => by
    obtain ⟨z, r', rfl⟩ : ∃ z r', r = z :: r' := by
      cases r with
      | nil => exact absurd rfl (hne _ (List.mem_cons_self _ _))
      | cons z r' => exact ⟨z, r', rfl⟩
    rw [List.flatten_cons, List.cons_append, dayRuns_cons]
    have hr' : ∀ a ∈ r', (fun y => dayOf y == dayOf z) a = true := by
      intro a ha
      exact beq_iff_eq.mpr
        (hcd _ (List.mem_cons_self _ _) a (List.mem_cons_of_mem _ ha) z (List.mem_cons_self _ _))
    have hheadlt : ∀ b ∈ L'.flatten, dayOf b < dayOf z := by
      intro b hb
      obtain ⟨s, hs, hbs⟩ := List.mem_flatten.mp hb
      exact (List.pairwise_cons.mp hlt).1 s hs z (List.mem_cons_self _ _) b hbs
    have htake : (r' ++ L'.flatten).takeWhile (fun y => dayOf y == dayOf z) = r' := by
      rw [takeWhile_append_all hr']
      cases hfl : L'.flatten with
      | nil => rw [List.takeWhile_nil, List.append_nil]
      | cons c t =>
        rw [List.takeWhile_cons, if_neg, List.append_nil]
        have hc : dayOf c < dayOf z := by
          apply hheadlt
          rw [hfl]
          exact List.mem_cons_self _ _
        simpa using Nat.ne_of_lt hc
    have hdrop : (r' ++ L'.flatten).dropWhile (fun y => dayOf y == dayOf z) = L'.flatten := by
      rw [dropWhile_append_all hr']
      cases hfl : L'.flatten with
      | nil => rw [List.dropWhile_nil]
      | cons c t =>
        rw [List.dropWhile_cons, if_neg]
        have hc : dayOf c < dayOf z := by
          apply hheadlt
          rw [hfl]
          exact List.mem_cons_self _ _
        simpa using Nat.ne_of_lt hc
    rw [htake, hdrop,
      dayRuns_flatten_of_runs L' (fun s hs => hne s (List.mem_cons_of_mem _ hs))
        (fun s hs => hcd s (List.mem_cons_of_mem _ hs)) (List.pairwise_cons.mp hlt).2]

/-- The first ranking pass splits over strictly time-separated
segments. -/
theorem insertionSort_timeLe_append (A B : List Recommendation)
    (h : ∀ a ∈ A, ∀ b ∈ B, b.createdAt < a.createdAt) :
    List.insertionSort timeLe (A ++ B) =
      List.insertionSort timeLe A ++ List.insertionSort timeLe B := by
  induction A with
  | nil => rw [List.nil_append, List.insertionSort, List.nil_append]
  | cons a A' ih =>
    rw [List.cons_append, List.insertionSort,
      ih (fun u hu b hb => h u (List.mem_cons_of_mem _ hu) b hb), List.insertionSort]
    apply orderedInsert_append_split timeLe timeLe a _ _ (fun y _ => Iff.rfl)
    intro b hb
    have hb1 : b ∈ List.insertionSort timeLe B := List.mem_of_mem_head? hb
    exact le_of_lt (h a (List.mem_cons_self _ _) b ((List.mem_insertionSort timeLe).mp hb1))

theorem insertionSort_timeLe_flatten (L : List (List Recommendation))
    (h : L.Pairwise (fun r s => ∀ a ∈ r, ∀ b ∈ s, b.createdAt < a.createdAt)) :
    List.insertionSort timeLe L.flatten = (L.map (List.insertionSort timeLe)).flatten := by
  induction L with
  | nil => rfl
  | cons r L' ih =>
    have hcross : ∀ a ∈ r, ∀ b ∈ L'.flatten, b.createdAt < a.createdAt := by
      intro a ha b hb
      obtain ⟨s, hs, hbs⟩ := List.mem_flatten.mp hb
      exact (List.pairwise_cons.mp h).1 s hs a ha b hbs
    rw [List.flatten_cons, insertionSort_timeLe_append r L'.flatten hcross, List.map_cons,
      List.flatten_cons, ih (List.pairwise_cons.mp h).2]

/-- Inserting a confidence-time-dominant element by time and then
re-sorting by confidence pins it at the front. -/
theorem insertionSort_confLe_orderedInsert_timeLe (x : Recommendation) :
    ∀ m : List Recommendation, (∀ y ∈ m, confTimeLe x y) →
      List.insertionSort confLe (List.orderedInsert timeLe x m) =
        x :: List.insertionSort confLe m
  | [], _ => rfl
  | y :: m', hdom => by
    by_cases ht : timeLe x y
    · rw [List.orderedInsert, if_pos ht]
      apply List.insertionSort_cons
      intro b hb
      rcases hdom b hb with hlt | ⟨heq, _⟩
      · exact le_of_lt hlt
      · exact le_of_eq heq
    · rw [List.orderedInsert, if_neg ht, List.insertionSort,
        insertionSort_confLe_orderedInsert_timeLe x m'
          (fun u hu => hdom u (List.mem_cons_of_mem _ hu))]
      have hylt : y.confidence < x.confidence := by
        rcases hdom y (List.mem_cons_self _ _) with hlt | ⟨heq, hle⟩
        · exact hlt
        · exact absurd hle ht
      have hncy : ¬ confLe y x := fun hcy => absurd hcy (not_le.mpr hylt)
      rw [List.orderedInsert, if_neg hncy]
      rfl

/-- Inserting into a `confTimeLe`-sorted list by confidence preserves
`confTimeLe`-sortedness when the new element is at least as new as
everything present. -/
theorem sorted_confTimeLe_orderedInsert (x : Recommendation) :
    ∀ M : List Recommendation, List.Sorted confTimeLe M →
      (∀ y ∈ M, y.createdAt ≤ x.createdAt) →
      List.Sorted confTimeLe (List.orderedInsert confLe x M)
  | [], _, _ => List.sorted_singleton x
  | b :: M', hs, htime => by
    by_cases hc : confLe x b
    · rw [List.orderedInsert, if_pos hc]
      refine List.sorted_cons.mpr ⟨?_, hs⟩
      intro z hz
      rcases List.mem_cons.mp hz with rfl | hz'
      · rcases lt_or_eq_of_le hc with hlt | heq
        · exact Or.inl hlt
        · exact Or.inr ⟨heq, htime z (List.mem_cons_self _ _)⟩
      · have hbz := (List.sorted_cons.mp hs).1 z hz'
        have hzb : z.confidence ≤ b.confidence := by
          rcases hbz with hlt | ⟨heq, _⟩
          · exact le_of_lt hlt
          · exact le_of_eq heq
        rcases lt_or_eq_of_le (le_trans hzb hc) with hlt | heq
        · exact Or.inl hlt
        · exact Or.inr ⟨heq, htime z (List.mem_cons_of_mem _ hz')⟩
    · rw [List.orderedInsert, if_neg hc]
      refine List.sorted_cons.mpr ⟨?_, sorted_confTimeLe_orderedInsert x M'
        (List.sorted_cons.mp hs).2 (fun u hu => htime u (List.mem_cons_of_mem _ hu))⟩
      intro z hz
      rcases (List.mem_orderedInsert confLe).mp hz with rfl | hz'
      · exact Or.inl (not_le.mp hc)
      · exact (List.sorted_cons.mp hs).1 z hz'

/-- The confidence sort of a time-antitone list is sorted by the
confidence-then-time lexicographic order. -/
theorem sorted_confTimeLe_insertionSort (r : List Recommendation)
    (h : r.Pairwise timeLe) :
    List.Sorted confTimeLe (List.insertionSort confLe r) := by
  induction r with
  | nil => exact List.sorted_nil
  | cons x r' ih =>
    rw [List.insertionSort]
    exact sorted_confTimeLe_orderedInsert x _ (ih (List.pairwise_cons.mp h).2)
      (fun y hy => (List.pairwise_cons.mp h).1 y ((List.mem_insertionSort confLe).mp hy))

/-- A `confTimeLe`-sorted list is a fixed point of time-sort followed by
confidence-sort. -/
theorem isortC_isortT_of_sorted :
    ∀ s : List Recommendation, List.Sorted confTimeLe s →
      List.insertionSort confLe (List.insertionSort timeLe s) = s
  | [], _ => rfl
  | x :: s', hs => by
    rw [List.insertionSort,
      insertionSort_confLe_orderedInsert_timeLe x _
        (fun y hy => (List.sorted_cons.mp hs).1 y ((List.mem_insertionSort timeLe).mp hy)),
      isortC_isortT_of_sorted s' (List.sorted_cons.mp hs).2]

/-- Per-run idempotence step: confidence-sorting, time-sorting, then
confidence-sorting a time-antitone run equals confidence-sorting it
once. -/
theorem isortC_isortT_isortC (r : List Recommendation) (h : r.Pairwise timeLe) :
    List.insertionSort confLe
        (List.insertionSort timeLe (List.insertionSort confLe r)) =
      List.insertionSort confLe r :=
  isortC_isortT_of_sorted _ (sorted_confTimeLe_insertionSort r h)

/-- Across the runs of a day-antitone list, days strictly decrease. -/
theorem dayRuns_pairwise_day_lt : ∀ l : List Recommendation, l.Pairwise dayGe →
    (dayRuns l).Pairwise (fun r s => ∀ a ∈ r, ∀ b ∈ s, dayOf b < dayOf a)
  | [], _ => by rw [dayRuns_nil]; exact List.Pairwise.nil
  | x :: xs, hp => by
    rw [dayRuns_cons]
    refine List.pairwise_cons.mpr ⟨?_, ?_⟩
    · intro s hs a ha b hb
      have hbmem : b ∈ xs.dropWhile (fun y => dayOf y == dayOf x) :=
        mem_of_mem_dayRuns hs hb
      have hblt : dayOf b < dayOf x :=
        day_lt_of_mem_dropWhile hp.of_cons
          (fun w hw => (List.pairwise_cons.mp hp).1 w hw) b hbmem
      have ha' : dayOf a = dayOf x := by
        rcases List.mem_cons.mp ha with rfl | ha'
        · rfl
        · exact dayOf_eq_of_mem_takeWhile ha'
      rw [ha']
      exact hblt
    · exact dayRuns_pairwise_day_lt _ (hp.of_cons.sublist (List.dropWhile_sublist _))
termination_by l => l.length
decreasing_by
  simp only [List.length_cons]
  exact Nat.lt_succ_of_le (List.dropWhile_sublist _).length_le

/-- C8: the two-pass ranking is idempotent on every candidate list
(candidates are pure values here; ids and timestamps are fixed). -/
theorem c8_ranking_idempotent (l : List Recommendation) :
    rankRecommendations (rankRecommendations l) = rankRecommendations l := by
  unfold rankRecommendations
  have hsorted : List.Sorted timeLe (List.insertionSort timeLe l) :=
    List.sorted_insertionSort timeLe l
  have hday : (List.insertionSort timeLe l).Pairwise dayGe :=
    hsorted.imp dayOf_le_of_timeLe
  have hruns := pass2_runs (List.insertionSort timeLe l) hday
  rw [hruns]
  have hne := dayRuns_ne_nil (List.insertionSort timeLe l)
  have hcd := dayRuns_day_eq (List.insertionSort timeLe l)
  have hlt := dayRuns_pairwise_day_lt (List.insertionSort timeLe l) hday
  have hrun_time : ∀ r ∈ dayRuns (List.insertionSort timeLe l), r.Pairwise timeLe :=
    fun r hr => hsorted.sublist (dayRuns_sublist _ r hr)
  have hcross : ((dayRuns (List.insertionSort timeLe l)).map
      (List.insertionSort confLe)).Pairwise
      (fun r s => ∀ a ∈ r, ∀ b ∈ s, b.createdAt < a.createdAt) := by
    rw [List.pairwise_map]
    refine hlt.imp ?_
    intro r s h a ha b hb
    exact createdAt_lt_of_dayOf_lt
      (h a ((List.mem_insertionSort confLe).mp ha) b ((List.mem_insertionSort confLe).mp hb))
  rw [insertionSort_timeLe_flatten _ hcross, List.map_map]
  have hday2 : (((dayRuns (List.insertionSort timeLe l)).map
      (List.insertionSort timeLe ∘ List.insertionSort confLe)).flatten).Pairwise dayGe := by
    rw [List.pairwise_flatten]
    constructor
    · intro L hL
      obtain ⟨run, hrun, rfl⟩ := List.mem_map.mp hL
      have hmem : ∀ a ∈ (List.insertionSort timeLe ∘ List.insertionSort confLe) run,
          a ∈ run := by
        intro a ha
        exact (List.mem_insertionSort confLe).mp ((List.mem_insertionSort timeLe).mp ha)
      refine List.pairwise_iff_forall_sublist.mpr ?_
      intro a b hab
      have ha := hmem a (hab.subset (List.mem_cons_self _ _))
      have hb := hmem b (hab.subset (List.mem_cons_of_mem _ (List.mem_cons_self _ _)))
      exact le_of_eq (hcd run hrun b hb a ha)
    · rw [List.pairwise_map]
      refine hlt.imp ?_
      intro r s h a ha b hb
      have ha' : a ∈ r := (List.mem_insertionSort confLe).mp ((List.mem_insertionSort timeLe).mp ha)
      have hb' : b ∈ s := (List.mem_insertionSort confLe).mp ((List.mem_insertionSort timeLe).mp hb)
      exact le_of_lt (h a ha' b hb')
  rw [pass2_runs _ hday2]
  rw [dayRuns_flatten_of_runs _ ?hne2 ?hcd2 ?hlt2]
  · rw [List.map_map]
    refine congrArg List.flatten ?_
    refine List.map_congr_left ?_
    intro r hr
    exact isortC_isortT_isortC r (hrun_time r hr)
  case hne2 =>
    intro r hr
    obtain ⟨run, hrun, rfl⟩ := List.mem_map.mp hr
    intro hnil
    apply hne run hrun
    have hlen := congrArg List.length hnil
    simp only [Function.comp_apply, List.length_insertionSort, List.length_nil] at hlen
    exact List.length_eq_zero.mp hlen
  case hcd2 =>
    intro r hr a ha b hb
    obtain ⟨run, hrun, rfl⟩ := List.mem_map.mp hr
    have ha' : a ∈ run := (List.mem_insertionSort confLe).mp ((List.mem_insertionSort timeLe).mp ha)
    have hb' : b ∈ run := (List.mem_insertionSort confLe).mp ((List.mem_insertionSort timeLe).mp hb)
    exact hcd run hrun a ha' b hb'
  case hlt2 =>
    rw [List.pairwise_map]
    refine hlt.imp ?_
    intro r s h a ha b hb
    have ha' : a ∈ r := (List.mem_insertionSort confLe).mp ((List.mem_insertionSort timeLe).mp ha)
    have hb' : b ∈ s := (List.mem_insertionSort confLe).mp ((List.mem_insertionSort timeLe).mp hb)
    exact h a ha' b hb'

/-- C1: after the first pass (stable sort, newest first) the second pass
sorts each same-calendar-day run by confidence descending (stably) and
leaves the relative order of candidates on different calendar days
untouched — the ranking is exactly the flatten of the per-day-run
confidence sorts of the first pass's output (conjunct 1); consequently
every same-day pair of the final ranking is ordered by confidence
descending (conjunct 2); in particular two same-day candidates with
confidences 0.9 and 0.6 end with the 0.9 candidate first
(conjunct 3). -/
theorem c1_two_pass_ranking :
    (∀ l : List Recommendation,
        rankRecommendations l =
          ((dayRuns (List.insertionSort timeLe l)).map (List.insertionSort confLe)).flatten) ∧
    (∀ l : List Recommendation,
        (rankRecommendations l).Pairwise
          (fun a b => dayOf a = dayOf b → b.confidence ≤ a.confidence)) ∧
    rankRecommendations [lowConfCand, highConfCand] = [highConfCand, lowConfCand] := by
  have runsEq : ∀ l : List Recommendation,
      rankRecommendations l =
        ((dayRuns (List.insertionSort timeLe l)).map (List.insertionSort confLe)).flatten :=
    fun l => pass2_runs _ ((List.sorted_insertionSort timeLe l).imp dayOf_le_of_timeLe)
  refine ⟨runsEq, fun l => ?_, ?_⟩
  · rw [runsEq l, List.pairwise_flatten]
    have hlt := dayRuns_pairwise_day_lt _
      ((List.sorted_insertionSort timeLe l).imp dayOf_le_of_timeLe)
    constructor
    · intro L hL
      obtain ⟨run, hrun, rfl⟩ := List.mem_map.mp hL
      have hsorted : List.Sorted confLe (List.insertionSort confLe run) :=
        List.sorted_insertionSort confLe run
      refine hsorted.imp ?_
      intro a b hab _
      exact hab
    · rw [List.pairwise_map]
      refine hlt.imp ?_
      intro r s h a ha b hb heq
      have ha' : a ∈ r := (List.mem_insertionSort confLe).mp ha
      have hb' : b ∈ s := (List.mem_insertionSort confLe).mp hb
      exact absurd heq.symm (Nat.ne_of_lt (h a ha' b hb'))
  · have h1 : List.insertionSort timeLe [lowConfCand, highConfCand] =
        [lowConfCand, highConfCand] := by
      apply List.Sorted.insertionSort_eq
      refine List.sorted_cons.mpr ⟨?_, List.sorted_singleton _⟩
      intro b hb
      rcases List.mem_cons.mp hb with rfl | hb'
      · decide
      · cases hb'
    unfold rankRecommendations
    rw [h1]
    show List.orderedInsert dayConfLe lowConfCand
        (List.orderedInsert dayConfLe highConfCand []) = _
    rw [List.orderedInsert_nil, List.orderedInsert, if_neg ?hneg]
    · rfl
    case hneg =>
      intro hcon
      have hd : dayOf lowConfCand = dayOf highConfCand := by decide
      have hle := hcon hd
      norm_num [lowConfCand, highConfCand] at hle

/-! ### Keyword containment survives sentence splitting -/

theorem splitSentences_ne_nil : ∀ l : List Char, splitSentences l ≠ []
  | [] => by simp [splitSentences]
  | c :: cs => by
    rw [splitSentences]
    by_cases h : sentencePunct c
    · rw [if_pos h]
      exact List.cons_ne_nil _ _
    · rw [if_neg h]
      cases hs : splitSentences cs with
      | nil => exact List.cons_ne_nil _ _
      | cons s rest => exact List.cons_ne_nil _ _

theorem toLower_of_punct {c : Char} (h : sentencePunct c = true) : c.toLower = c := by
  have h' : c = '.' ∨ c = '!' ∨ c = '?' := by
    simp only [sentencePunct, Bool.or_eq_true, beq_iff_eq] at h
    tauto
  rcases h' with rfl | rfl | rfl <;> decide

/-- A separator-free prefix of the lower-cased text is a prefix of the
lower-cased first sentence. -/
theorem prefix_lower_head_splitSentences :
    ∀ (kw : List Char) (cs : List Char) (s0 : List Char) (rest : List (List Char)),
      kw <+: lowerStr cs → (∀ c ∈ kw, sentencePunct c = false) →
      splitSentences cs = s0 :: rest → kw <+: lowerStr s0
  | [], _, _, _, _, _, _ => List.nil_prefix
  | d :: kw', cs, s0, rest, hpre, hnp, hsplit => by
    cases cs with
    | nil =>
      exact absurd (List.prefix_nil.mp hpre) (List.cons_ne_nil _ _)
    | cons e cs' =>
      have hpre' := (List.cons_prefix_cons).mp hpre
      have hde : d = e.toLower := hpre'.1
      have hpe : sentencePunct e = false := by
        by_contra hcon
        have hpe' : sentencePunct e = true := by
          cases hval : sentencePunct e
          · exact absurd hval hcon
          · rfl
        have : d = e := by rw [hde, toLower_of_punct hpe']
        have hd := hnp d (List.mem_cons_self _ _)
        rw [this, hpe'] at hd
        cases hd
      rw [splitSentences, if_neg (by rw [hpe]; exact Bool.false_ne_true)] at hsplit
      cases hs : splitSentences cs' with
      | nil => exact absurd hs (splitSentences_ne_nil cs')
      | cons s1 rest1 =>
        rw [hs] at hsplit
        injection hsplit with h1 h2
        subst h1
        refine (List.cons_prefix_cons).mpr ⟨hde, ?_⟩
        exact prefix_lower_head_splitSentences kw' cs' s1 rest1 hpre'.2
          (fun c hc => hnp c (List.mem_cons_of_mem _ hc)) hs

/-- A separator-free keyword contained in the lower-cased text is
contained in the lower-casing of one of the sentences. -/
theorem exists_segment_of_infix_lower :
    ∀ (content kw : List Char), kw ≠ [] →
      (∀ c ∈ kw, sentencePunct c = false) →
      kw <:+: lowerStr content →
      ∃ seg ∈ splitSentences content, kw <:+: lowerStr seg
  | [], kw, hne, _, hinf => by
    exact absurd (List.eq_nil_of_infix_nil hinf) hne
  | c :: cs, kw, hne, hnp, hinf => by
    rcases List.infix_cons_iff.mp hinf with hpre | hinf'
    · -- kw is a prefix of toLower c :: lowerStr cs
      cases hkw : kw with
      | nil => exact absurd hkw hne
      | cons k0 kw' =>
        rw [hkw] at hpre hnp
        have hpre' := (List.cons_prefix_cons).mp hpre
        have hk0 : k0 = c.toLower := hpre'.1
        have hpc : sentencePunct c = false := by
          by_contra hcon
          have hpc' : sentencePunct c = true := by
            cases hval : sentencePunct c
            · exact absurd hval hcon
            · rfl
          have : k0 = c := by rw [hk0, toLower_of_punct hpc']
          have hk := hnp k0 (List.mem_cons_self _ _)
          rw [this, hpc'] at hk
          cases hk
        cases hs : splitSentences cs with
        | nil => exact absurd hs (splitSentences_ne_nil cs)
        | cons s0 rest =>
          refine ⟨c :: s0, ?_, ?_⟩
          · rw [splitSentences, if_neg (by rw [hpc]; exact Bool.false_ne_true), hs]
            exact List.mem_cons_self _ _
          · have hkpre : k0 :: kw' <+: lowerStr (c :: s0) := by
              refine (List.cons_prefix_cons).mpr ⟨hk0, ?_⟩
              exact prefix_lower_head_splitSentences kw' cs s0 rest hpre'.2
                (fun u hu => hnp u (List.mem_cons_of_mem _ hu)) hs
            exact hkpre.isInfix
    · -- kw is contained in the tail
      obtain ⟨seg, hsegmem, hseginf⟩ :=
        exists_segment_of_infix_lower cs kw hne hnp hinf'
      cases hs : splitSentences cs with
      | nil => exact absurd hs (splitSentences_ne_nil cs)
      | cons s0 rest =>
        rw [hs] at hsegmem
        by_cases hpc : sentencePunct c = true
        · refine ⟨seg, ?_, hseginf⟩
          rw [splitSentences, if_pos hpc, hs]
          exact List.mem_cons_of_mem _ hsegmem
        · rcases List.mem_cons.mp hsegmem with rfl | hsegmem'
          · refine ⟨c :: seg, ?_, ?_⟩
            · rw [splitSentences, if_neg hpc, hs]
              exact List.mem_cons_self _ _
            · exact List.infix_cons hseginf
          · refine ⟨seg, ?_, hseginf⟩
            rw [splitSentences, if_neg hpc, hs]
            exact List.mem_cons_of_mem _ hsegmem'

/-- C10: whenever one of the 10 most recent assistant messages contains
the keyword `risk` (case-insensitively), the chat-insight extractor
emits exactly one risk-category candidate: title "Risk Management",
type `business` (the `risk` category falls through the `switch` to its
`default` branch), confidence 0.60, source `chat`. -/
theorem c10_risk_chat_insight (now : Nat) (messages : List ChatMessage)
    (h : ∃ m ∈ (List.insertionSort msgRecencyLe
        (messages.filter (fun m => m.role == "assistant"))).take 10,
        "risk".toList <:+: lowerStr m.content) :
    ∃ d, (extractChatInsights now messages).filter
        (fun c => c.title == "Risk Management") =
      [{ id := s!"chat-risk-{now}", type := "business",
         title := "Risk Management", description := d,
         confidence := 0.6, source := "chat", createdAt := now }] := by
  simp only [extractChatInsights]
  generalize hrec : (List.insertionSort msgRecencyLe
      (messages.filter (fun m => m.role == "assistant"))).take 10 = recent at h ⊢
  obtain ⟨m, hm, hinf⟩ := h
  have hseg : ∃ seg ∈ splitSentences m.content, "risk".toList <:+: lowerStr seg :=
    exists_segment_of_infix_lower m.content _ (by decide) (by decide) hinf
  obtain ⟨seg, hsegmem, hseginf⟩ := hseg
  have hfilter : (splitSentences m.content).filter
      (fun s => decide ("risk".toList <:+: lowerStr s)) ≠ [] :=
    List.ne_nil_of_mem (List.mem_filter.mpr ⟨hsegmem, decide_eq_true hseginf⟩)
  have hkw : ("risk", "risk") ∈ keywordMap := by decide
  have hcontrib : ∃ b, b ∈ msgContributions "risk" m := by
    unfold msgContributions
    cases hflt : (splitSentences m.content).filter
        (fun s => decide ("risk".toList <:+: lowerStr s)) with
    | nil => exact absurd hflt hfilter
    | cons s ss =>
      refine ⟨trimChars s, List.mem_filterMap.mpr ⟨("risk", "risk"), hkw, ?_⟩⟩
      rw [if_pos ⟨rfl, hinf⟩, hflt]
  obtain ⟨b, hbmem⟩ := hcontrib
  have hbucket : categoryBucket recent "risk" ≠ [] :=
    List.ne_nil_of_mem (List.mem_flatMap.mpr ⟨m, hm, hbmem⟩)
  obtain ⟨s0, rest, hb⟩ : ∃ s0 rest, categoryBucket recent "risk" = s0 :: rest := by
    cases hbk : categoryBucket recent "risk" with
    | nil => exact absurd hbk hbucket
    | cons a t => exact ⟨a, t, rfl⟩
  refine ⟨String.mk s0, ?_⟩
  rw [List.filter_filterMap]
  have hrisk : (match categoryBucket recent "risk" with
      | [] => none
      | topSentence :: _ => some (chatCand now "risk" topSentence)).filter
      (fun c => c.title == "Risk Management") = some (chatCand now "risk" s0) := by
    rw [hb]
    rfl
  have hother : ∀ cat : String,
      (List.lookup cat chatTitles).getD "AI Insight" ≠ "Risk Management" →
      (match categoryBucket recent cat with
       | [] => none
       | topSentence :: _ => some (chatCand now cat topSentence)).filter
        (fun c : Recommendation => c.title == "Risk Management") = none := by
    intro cat hcat
    cases categoryBucket recent cat with
    | nil => rfl
    | cons a t =>
      have hcon : ¬ (((chatCand now cat a).title == "Risk Management") = true) := by
        simp only [chatCand, beq_iff_eq]
        exact hcat
      show (if (chatCand now cat a).title == "Risk Management"
          then some (chatCand now cat a) else none) = none
      exact if_neg hcon
  simp only [chatCategoryOrder, List.filterMap_cons, List.filterMap_nil,
    hother "growth" (by decide), hother "profit" (by decide),
    hother "cost" (by decide), hrisk, hother "market" (by decide),
    hother "seasonal" (by decide), hother "resource" (by decide)]
  rfl

/-- Witness for C10 at a single assistant message mentioning risk. -/
theorem c10_witness :
    ∃ d, (extractChatInsights 0 [riskMessage]).filter
        (fun c => c.title == "Risk Management") =
      [{ id := "chat-risk-0", type := "business",
         title := "Risk Management", description := d,
         confidence := 0.6, source := "chat", createdAt := 0 }] :=
  c10_risk_chat_insight 0 [riskMessage] (by decide)

end Arina
